import Mathlib

/-!
Shallow embedding of `src/dashboard/pages/surface.py` (the data-to-surface
pipeline of the STA-160 dashboard):

* `get_surface_data` : load the master table, resolve/parse a `datetime`
  column, drop rows without a timestamp, and pick the price column
  (`standardized_price` before `charge`).
* `build_surface_figure` : guard on empty data, derive `month`/`hour`
  columns, pivot to a (hour × month) mean-price grid, linearly interpolate
  gaps along the hour axis, zero-fill what remains, and package the three
  aligned arrays.
* a small process-state model for the `lru_cache(maxsize=1)` memoization
  and the in-place mutation semantics of pandas column assignment
  (`df.copy()` before adding derived columns).

Pandas semantics modelled: `pd.to_datetime(..., errors="coerce")` maps a
value to a timestamp or to `NaT`; `pivot_table(..., aggfunc="mean")`
groups by the two keys, averages the non-missing values per group, drops
groups whose aggregate is missing, and arranges sorted distinct key
values; `interpolate(method="linear", axis=0)` works positionally down
each column, leaves leading missing entries, fills interior gaps on the
straight line between the surrounding known entries, and extends the last
known value over trailing gaps; `fillna(0)` replaces remaining missing
entries by `0`.
-/

set_option allowUnsafeReducibility true in
attribute [semireducible] Rat.add Rat.mul Rat.inv Rat.sub

namespace Surface

/-- A calendar timestamp, reduced to the two fields the pipeline consumes:
`month` stores the calendar month minus one (so `.dt.month = month + 1 ∈ [1,12]`)
and `hour` the hour of day (`.dt.hour ∈ [0,23]`). -/
structure Ts where
  month : Fin 12
  hour : Fin 24
deriving DecidableEq, Repr

/-- One table cell.  `na` is a missing value (`NaN`/`NaT`), `num` a numeric
value, `time` a value that `pd.to_datetime` parses successfully (carrying the
resulting timestamp), `raw` any other unparseable value. -/
inductive Cell where
  | na : Cell
  | num (q : ℚ) : Cell
  | time (t : Ts) : Cell
  | raw (s : String) : Cell
deriving DecidableEq, Repr

/-- `pd.to_datetime(·, errors="coerce")` on one cell: a parseable value keeps
its timestamp, everything else is coerced to missing (`NaT`) instead of
raising. -/
def parseDT : Cell → Cell
  | Cell.time t => Cell.time t
  | _ => Cell.na

/-- Is the cell missing? (`isna`). -/
def Cell.isNA : Cell → Bool
  | Cell.na => true
  | _ => false

/-- Numeric view of a cell, as used by `mean` aggregation. -/
def asNum : Cell → Option ℚ
  | Cell.num q => some q
  | _ => none

/-- A pandas DataFrame: ordered column names and rows of cells (row `r` holds
the cell of column `cols[i]` at position `i`). -/
structure DF where
  cols : List String
  rows : List (List Cell)
deriving DecidableEq, Repr

/-- A real DataFrame is rectangular: every row has one cell per column. -/
def DF.WF (df : DF) : Prop :=
  ∀ r ∈ df.rows, r.length = df.cols.length

/-- `df.empty`: true iff one of the axes has length zero. -/
def DF.empty (df : DF) : Bool :=
  df.rows.isEmpty || df.cols.isEmpty

/-- Position of a column name. -/
def DF.colIdx (df : DF) (c : String) : Option Nat :=
  df.cols.findIdx? (· == c)

/-- Cell of one row at an optional column position (missing if out of range). -/
def cellAt (row : List Cell) : Option Nat → Cell
  | some j => row.getD j Cell.na
  | none => Cell.na

/-- The full column named `c` (missing cells where rows are short). -/
def DF.getCol (df : DF) (c : String) : List Cell :=
  df.rows.map (fun r => cellAt r (df.colIdx c))

/-- `df[c] = vs`: replace the column in place when the name exists, otherwise
append it on the right (pandas column assignment). -/
def DF.setCol (df : DF) (c : String) (vs : List Cell) : DF :=
  match df.cols.findIdx? (· == c) with
  | some j => { cols := df.cols, rows := (df.rows.zip vs).map (fun p => p.1.set j p.2) }
  | none => { cols := df.cols ++ [c], rows := (df.rows.zip vs).map (fun p => p.1 ++ [p.2]) }

/-- Substring test on character lists. -/
def isSubList (needle : List Char) : List Char → Bool
  | [] => needle.isEmpty
  | c :: rest => needle.isPrefixOf (c :: rest) || isSubList needle rest

/-- `"date" in c.lower() or "time" in c.lower()` from the candidate search
(lower-casing char by char, as `str.lower` does on these ASCII names). -/
def isDTName (c : String) : Bool :=
  isSubList "date".toList (c.toList.map Char.toLower) ||
  isSubList "time".toList (c.toList.map Char.toLower)

/-- The column index the timestamp is parsed from: a column literally named
`datetime` first, otherwise the first column whose lower-cased name contains
`date` or `time` (`datetime_cols[0]`), otherwise none. -/
def dtSourceIdx (df : DF) : Option Nat :=
  if "datetime" ∈ df.cols then df.cols.findIdx? (· == "datetime")
  else match (df.cols.filter isDTName).head? with
       | some c => df.cols.findIdx? (· == c)
       | none => none

/-- Lines 26–37 of `surface.py`: set `df["datetime"]` to the parsed source
column, or to all-`NaT` when no candidate column exists. -/
def setDatetime (df : DF) : DF :=
  let vals : List Cell :=
    match dtSourceIdx df with
    | some j => df.rows.map (fun r => parseDT (r.getD j Cell.na))
    | none => df.rows.map (fun _ => Cell.na)
  df.setCol "datetime" vals

/-- `df.dropna(subset=["datetime"])`: keep the rows whose `datetime` cell is
not missing. -/
def dropnaDatetime (df : DF) : DF :=
  match df.colIdx "datetime" with
  | some j => { df with rows := df.rows.filter (fun r => !(r.getD j Cell.na).isNA) }
  | none => df

/-- Lines 41–47: the price column, `standardized_price` before `charge`. -/
def choosePrice (df : DF) : Option String :=
  if "standardized_price" ∈ df.cols then some "standardized_price"
  else if "charge" ∈ df.cols then some "charge"
  else none

/-- The `try`-block body of `get_surface_data` applied to the loaded table. -/
def prepare (df : DF) : DF × Option String :=
  let df1 := setDatetime df
  let df2 := dropnaDatetime df1
  (df2, choosePrice df2)

/-- `get_surface_data` (lines 15–53).  The upstream call `load_master()` is
modelled by its behaviour `src`: either a returned table (`Except.ok`) or a
raised exception (`Except.error`); the surrounding `try/except` catches the
exception and substitutes an empty table with an absent price column. -/
def get_surface_data (src : Except String DF) : DF × Option String :=
  match src with
  | Except.ok df => prepare df
  | Except.error _ => (⟨[], []⟩, none)

/-! ## Surface builder -/

/-- The figure handed to the renderer: either the blank artifact (no data,
hidden axes) or a surface with its three aligned arrays (x = months,
y = hours, z = mean-price grid); styling is presentation-only and omitted. -/
inductive Fig where
  | blank : Fig
  | surface (x : List ℚ) (y : List ℚ) (z : List (List ℚ)) : Fig
deriving DecidableEq, Repr

/-- `.dt.month` of a datetime cell (1–12; missing input gives missing). -/
def monthOf : Cell → Cell
  | Cell.time t => Cell.num ((t.month.val : ℚ) + 1)
  | _ => Cell.na

/-- `.dt.hour` of a datetime cell (0–23). -/
def hourOf : Cell → Cell
  | Cell.time t => Cell.num (t.hour.val : ℚ)
  | _ => Cell.na

/-- Lines 75–77: `df = df.copy(); df["month"] = ...; df["hour"] = ...`
(the copy is modelled in the stateful semantics below). -/
def addMonthHour (df : DF) : DF :=
  let df1 := df.setCol "month" ((df.getCol "datetime").map monthOf)
  df1.setCol "hour" ((df1.getCol "datetime").map hourOf)

/-- Insert a value into a sorted duplicate-free list, keeping it sorted and
duplicate-free. -/
def insertSorted (x : ℚ) : List ℚ → List ℚ
  | [] => [x]
  | y :: ys =>
      if x < y then x :: y :: ys
      else if x = y then y :: ys
      else y :: insertSorted x ys

/-- Sorted distinct values (how `groupby`/`pivot_table` arranges key values). -/
def dedupSort (l : List ℚ) : List ℚ :=
  l.foldr insertSorted []

/-- The `(hour, month, price)` triples the pivot groups: one per row whose
`hour` and `month` cells are numeric (rows with a missing group key are
dropped by `groupby`). -/
def pivotTriples (df : DF) (pc : String) : List (ℚ × ℚ × Option ℚ) :=
  df.rows.filterMap (fun r =>
    match asNum (cellAt r (df.colIdx "hour")), asNum (cellAt r (df.colIdx "month")) with
    | some h, some m => some (h, m, asNum (cellAt r (df.colIdx pc)))
    | _, _ => none)

/-- Mean of the numeric price values of the `(h, m)` group; missing when the
group has no numeric value (`mean` skips missing values). -/
def groupMean (ts : List (ℚ × ℚ × Option ℚ)) (h m : ℚ) : Option ℚ :=
  let vs := (ts.filter (fun t => t.1 == h && t.2.1 == m)).filterMap (fun t => t.2.2)
  if vs.isEmpty then none else some (vs.sum / vs.length)

/-- `pivot_table(index="hour", columns="month", values=pc, aggfunc="mean")`:
sorted distinct hour values (index) and month values (columns) of the groups
whose aggregate is not missing (`dropna=True` discards all-missing groups),
plus the cell contents. -/
def pivotKeys (ts : List (ℚ × ℚ × Option ℚ)) : List (ℚ × ℚ × Option ℚ) :=
  ts.filter (fun t => (groupMean ts t.1 t.2.1).isSome)

def pivotHours (ts : List (ℚ × ℚ × Option ℚ)) : List ℚ :=
  dedupSort ((pivotKeys ts).map (fun t => t.1))

def pivotMonths (ts : List (ℚ × ℚ × Option ℚ)) : List ℚ :=
  dedupSort ((pivotKeys ts).map (fun t => t.2.1))

/-- `interpolate(method="linear")` down one column, after the first known
value `a` with `ns` missing entries pending: an interior gap of `ns` entries
between `a` and the next known `b` is filled on the straight line between
them (positionally equally spaced); trailing missing entries repeat `a`. -/
def interpGo (a : ℚ) (ns : Nat) : List (Option ℚ) → List ℚ
  | [] => List.replicate ns a
  | none :: rest => interpGo a (ns + 1) rest
  | some b :: rest =>
      (List.range ns).map (fun k : ℕ => a + ((k : ℚ) + 1) * (b - a) / ((ns : ℚ) + 1))
        ++ b :: interpGo b 0 rest

/-- `interpolate(method="linear", axis=0)` on one pivot column: leading
missing entries are left missing (default `limit_direction="forward"`),
the rest is filled by `interpGo`. -/
def interpolateColumn : List (Option ℚ) → List (Option ℚ)
  | [] => []
  | none :: rest => none :: interpolateColumn rest
  | some a :: rest => some a :: (interpGo a 0 rest).map some

/-- One month column of the pivot after `interpolate` and `fillna(0)`. -/
def filledColumn (ts : List (ℚ × ℚ × Option ℚ)) (hours : List ℚ) (m : ℚ) : List ℚ :=
  (interpolateColumn (hours.map (fun h => groupMean ts h m))).map (fun o => o.getD 0)

/-- The surface figure determined by the grouped triples: pivot, interpolate,
zero-fill, and read off `x = pivot.columns`, `y = pivot.index`,
`z = pivot.values` (row `i` of `z` is hour `y[i]` across the month
columns). -/
def surfOfTriples (ts : List (ℚ × ℚ × Option ℚ)) : Fig :=
  let hours := pivotHours ts
  let months := pivotMonths ts
  let cols := months.map (fun m => filledColumn ts hours m)
  Fig.surface months hours
    ((List.range hours.length).map (fun i => cols.map (fun c => c.getD i 0)))

/-- Lines 79–89 together: group, pivot and package. -/
def mkSurface (df : DF) (pc : String) : Fig :=
  surfOfTriples (pivotTriples df pc)

/-- `build_surface_figure` (lines 56–147) as a pure function of the upstream
behaviour: guard to the blank artifact on empty data or absent price column,
otherwise build the surface. -/
def build_surface_figure (src : Except String DF) : Fig :=
  let p := get_surface_data src
  if p.1.empty || p.2.isNone then Fig.blank
  else match p.2 with
       | some pc => mkSurface (addMonthHour p.1) pc
       | none => Fig.blank

/-- Value of the figure's grid at hour value `h` and month value `m`
(missing when the figure is blank or the axes do not contain the values). -/
def gridAt : Fig → ℚ → ℚ → Option ℚ
  | Fig.blank, _, _ => none
  | Fig.surface x y z, h, m =>
      match y.findIdx? (· == h), x.findIdx? (· == m) with
      | some i, some j => (z.getD i []).get? j
      | _, _ => none

/-! ## Process state: `lru_cache(maxsize=1)` and pandas object identity

Both functions are memoized for the process lifetime.  DataFrames are
mutable heap objects: `get_surface_data` caches a *reference* to the
prepared table, and `build_surface_figure` calls `df.copy()` before adding
the derived `month`/`hour` columns in place, so the mutation lands on a
fresh object, not the cached one. -/

/-- Process state: the heap of allocated DataFrames (references are
positions), the cached result of `get_surface_data` (a reference plus the
price column), and the cached figure. -/
structure PState where
  heap : List DF
  surfCache : Option (Nat × Option String)
  figCache : Option Fig
deriving Repr

/-- Allocate a fresh DataFrame object, returning its reference. -/
def alloc (s : PState) (df : DF) : Nat × PState :=
  (s.heap.length, { s with heap := s.heap ++ [df] })

/-- Dereference (an out-of-range reference reads as an empty table). -/
def readDF (s : PState) (r : Nat) : DF :=
  s.heap.getD r ⟨[], []⟩

/-- In-place update of the object behind a reference. -/
def writeDF (s : PState) (r : Nat) (df : DF) : PState :=
  { s with heap := s.heap.set r df }

/-- Stateful `get_surface_data`: return the cached pair when present,
otherwise compute it, allocate the table, and cache the reference. -/
def get_surface_data_st (src : Except String DF) (s : PState) :
    (Nat × Option String) × PState :=
  match s.surfCache with
  | some v => (v, s)
  | none =>
      let p := get_surface_data src
      let a := alloc s p.1
      ((a.1, p.2), { a.2 with surfCache := some (a.1, p.2) })

/-- Stateful `build_surface_figure`: return the cached figure when present;
otherwise fetch the prepared pair, guard, `df.copy()` into a fresh object,
add the `month`/`hour` columns in place on the copy, build the surface, and
cache the figure. -/
def build_surface_figure_st (src : Except String DF) (s : PState) :
    Fig × PState :=
  match s.figCache with
  | some f => (f, s)
  | none =>
      let q := get_surface_data_st src s
      let df := readDF q.2 q.1.1
      if df.empty || q.1.2.isNone then
        (Fig.blank, { q.2 with figCache := some Fig.blank })
      else
        let a := alloc q.2 df
        let s3 := writeDF a.2 a.1 (addMonthHour (readDF a.2 a.1))
        let fig := match q.1.2 with
                   | some pc => mkSurface (readDF s3 a.1) pc
                   | none => Fig.blank
        (fig, { s3 with figCache := some fig })

/-- The state of a freshly started process: nothing allocated, nothing
cached. -/
def freshState : PState := ⟨[], none, none⟩

/-! ## Reference definitions and example tables -/

/-- The standardized prices of the records whose parsed timestamp has hour `h`
and month `m`: the reference group of the mean-value specification. -/
def groupPrices (df : DF) (h : Fin 24) (m : Fin 12) : List ℚ :=
  df.rows.filterMap (fun r =>
    match cellAt r (df.colIdx "datetime") with
    | Cell.time t =>
        if t.hour = h ∧ t.month = m then
          asNum (cellAt r (df.colIdx "standardized_price"))
        else none
    | _ => none)

/-- Two records in month 1 (`Ts.month = 0`) at hours 0 and 2 with prices 10
and 20: the spec's interpolation example. -/
def exampleA : DF :=
  ⟨["datetime", "standardized_price"],
   [[Cell.time ⟨0, 0⟩, Cell.num 10],
    [Cell.time ⟨0, 2⟩, Cell.num 20]]⟩

/-- `exampleA` plus one record at hour 1 of month 2, so that hour 1 appears
in the pivot index and the (hour 1, month 1) cell is an interpolated gap. -/
def exampleB : DF :=
  ⟨["datetime", "standardized_price"],
   [[Cell.time ⟨0, 0⟩, Cell.num 10],
    [Cell.time ⟨0, 2⟩, Cell.num 20],
    [Cell.time ⟨1, 1⟩, Cell.num 5]]⟩

/-- A table with no timestamp-like column (and a `charge` price column). -/
def exampleC : DF := ⟨["foo", "charge"], [[Cell.raw "x", Cell.num 3]]⟩

/-- A table whose timestamp arrives under the name `Trade Time` and whose
price arrives as `charge`. -/
def exampleD : DF := ⟨["Trade Time", "charge"], [[Cell.time ⟨4, 7⟩, Cell.num 3]]⟩

/-! ## Lemmas: the DataFrame model -/

theorem getCol_length (df : DF) (c : String) : (df.getCol c).length = df.rows.length :=
  List.length_map _ _

theorem zip_map_self {α β : Type} (g : α → β) :
    ∀ l : List α, l.zip (l.map g) = l.map (fun a => (a, g a))
  | [] => rfl
  | a :: l => by simp [zip_map_self g l]

theorem setCol_map_replace (df : DF) (c : String) (g : List Cell → Cell) {j : Nat}
    (h : df.cols.findIdx? (· == c) = some j) :
    df.setCol c (df.rows.map g) = ⟨df.cols, df.rows.map (fun r => r.set j (g r))⟩ := by
  simp only [DF.setCol, h, zip_map_self, List.map_map]
  rfl

theorem setCol_map_append (df : DF) (c : String) (g : List Cell → Cell)
    (h : df.cols.findIdx? (· == c) = none) :
    df.setCol c (df.rows.map g) = ⟨df.cols ++ [c], df.rows.map (fun r => r ++ [g r])⟩ := by
  simp only [DF.setCol, h, zip_map_self, List.map_map]
  rfl

theorem setCol_map_WF (df : DF) (c : String) (g : List Cell → Cell) (hWF : df.WF) :
    (df.setCol c (df.rows.map g)).WF := by
  cases h : df.cols.findIdx? (· == c) with
  | some j =>
      rw [setCol_map_replace df c g h]
      intro r hr
      simp only [List.mem_map] at hr
      obtain ⟨r₀, hr₀, rfl⟩ := hr
      simp [hWF r₀ hr₀]
  | none =>
      rw [setCol_map_append df c g h]
      intro r hr
      simp only [List.mem_map] at hr
      obtain ⟨r₀, hr₀, rfl⟩ := hr
      simp [hWF r₀ hr₀]

theorem getCol_setCol_self (df : DF) (c : String) (g : List Cell → Cell) (hWF : df.WF) :
    (df.setCol c (df.rows.map g)).getCol c = df.rows.map g := by
  cases h : df.cols.findIdx? (· == c) with
  | some j =>
      obtain ⟨hlt, hp, -⟩ := List.findIdx?_eq_some_iff_getElem.mp h
      rw [setCol_map_replace df c g h]
      show (df.rows.map _).map (fun r => cellAt r (DF.colIdx ⟨df.cols, _⟩ c)) = _
      simp only [DF.colIdx, h, List.map_map]
      apply List.map_congr_left
      intro r hr
      have hlen : r.length = df.cols.length := hWF r hr
      simp [cellAt, Function.comp, List.getD_eq_getElem?_getD,
        List.getElem?_set_self (show j < r.length by omega)]
  | none =>
      rw [setCol_map_append df c g h]
      have hfi : (df.cols ++ [c]).findIdx? (· == c) = some df.cols.length := by
        rw [List.findIdx?_append]
        simp [h]
      show (df.rows.map _).map (fun r => cellAt r (DF.colIdx ⟨df.cols ++ [c], _⟩ c)) = _
      simp only [DF.colIdx, hfi, List.map_map]
      apply List.map_congr_left
      intro r hr
      have hlen : r.length = df.cols.length := hWF r hr
      simp [cellAt, Function.comp, List.getD_eq_getElem?_getD,
        List.getElem?_append_right (show r.length ≤ df.cols.length by omega), hlen]

theorem getCol_setCol_ne (df : DF) (c c' : String) (g : List Cell → Cell) (hWF : df.WF)
    (hne : c' ≠ c) :
    (df.setCol c (df.rows.map g)).getCol c' = df.getCol c' := by
  cases h : df.cols.findIdx? (· == c) with
  | some j =>
      obtain ⟨hlt, hp, -⟩ := List.findIdx?_eq_some_iff_getElem.mp h
      have hjc : df.cols[j] = c := by simpa using hp
      rw [setCol_map_replace df c g h]
      show (df.rows.map _).map (fun r => cellAt r (DF.colIdx ⟨df.cols, _⟩ c')) = _
      unfold DF.getCol
      simp only [DF.colIdx, List.map_map]
      cases h' : df.cols.findIdx? (· == c') with
      | none => simp [cellAt, Function.comp_def]
      | some j' =>
          obtain ⟨hlt', hp', -⟩ := List.findIdx?_eq_some_iff_getElem.mp h'
          have hjc' : df.cols[j'] = c' := by simpa using hp'
          have hjj : j ≠ j' := by
            intro hE
            subst hE
            exact hne (hjc'.symm.trans hjc)
          apply List.map_congr_left
          intro r hr
          simp [cellAt, Function.comp, List.getD_eq_getElem?_getD,
            List.getElem?_set_ne hjj]
  | none =>
      rw [setCol_map_append df c g h]
      have hcc : (c == c') = false := beq_eq_false_iff_ne.mpr (fun hE => hne hE.symm)
      have hfi : (df.cols ++ [c]).findIdx? (· == c') = df.cols.findIdx? (· == c') := by
        rw [List.findIdx?_append]
        simp [hcc]
      show (df.rows.map _).map (fun r => cellAt r (DF.colIdx ⟨df.cols ++ [c], _⟩ c')) = _
      unfold DF.getCol
      simp only [DF.colIdx, hfi, List.map_map]
      cases h' : df.cols.findIdx? (· == c') with
      | none => simp [cellAt, Function.comp_def]
      | some j' =>
          obtain ⟨hlt', hp', -⟩ := List.findIdx?_eq_some_iff_getElem.mp h'
          apply List.map_congr_left
          intro r hr
          have hlen : r.length = df.cols.length := hWF r hr
          simp [cellAt, Function.comp, List.getD_eq_getElem?_getD,
            List.getElem?_append_left (show j' < r.length by omega)]

/-! ## Lemmas: interpolation and pivot -/

theorem interpGo_length (l : List (Option ℚ)) :
    ∀ (a : ℚ) (ns : Nat), (interpGo a ns l).length = ns + l.length := by
  induction l with
  | nil => intro a ns; simp [interpGo]
  | cons c rest ih =>
      intro a ns
      cases c with
      | none =>
          rw [show interpGo a ns (none :: rest) = interpGo a (ns + 1) rest from rfl,
            ih a (ns + 1), List.length_cons]
          omega
      | some b =>
          rw [show interpGo a ns (some b :: rest) =
            (List.range ns).map
              (fun k : ℕ => a + ((k : ℚ) + 1) * (b - a) / ((ns : ℚ) + 1))
              ++ b :: interpGo b 0 rest from rfl]
          rw [List.length_append, List.length_map, List.length_range,
            List.length_cons, ih b 0, List.length_cons]
          omega

theorem interpGo_getElem (l : List (Option ℚ)) :
    ∀ (a : ℚ) (ns k : Nat) (b : ℚ), l[k]? = some (some b) →
      (interpGo a ns l)[ns + k]? = some b := by
  induction l with
  | nil => intro a ns k b h; simp at h
  | cons c rest ih =>
      intro a ns k b h
      cases c with
      | none =>
          cases k with
          | zero => simp at h
          | succ k =>
              have h' : rest[k]? = some (some b) := by simpa using h
              have hrec := ih a (ns + 1) k b h'
              simp only [interpGo]
              rw [show ns + (k + 1) = (ns + 1) + k by omega]
              exact hrec
      | some b' =>
          have hgap : ((List.range ns).map
              (fun k : ℕ => a + ((k : ℚ) + 1) * (b' - a) / ((ns : ℚ) + 1))).length = ns := by
            rw [List.length_map, List.length_range]
          cases k with
          | zero =>
              have hb : b' = b := by simpa using h
              subst hb
              simp only [interpGo]
              rw [List.getElem?_append_right (by omega), hgap]
              simp
          | succ k =>
              have h' : rest[k]? = some (some b) := by simpa using h
              have hrec := ih b' 0 k b h'
              simp only [interpGo]
              rw [List.getElem?_append_right (by omega), hgap]
              rw [show ns + (k + 1) - ns = k + 1 by omega]
              simpa using hrec

theorem interpolateColumn_length (l : List (Option ℚ)) :
    (interpolateColumn l).length = l.length := by
  induction l with
  | nil => rfl
  | cons c rest ih =>
      cases c with
      | none => simp [interpolateColumn, ih]
      | some a => simp [interpolateColumn, interpGo_length]

theorem interpolateColumn_getElem (l : List (Option ℚ)) :
    ∀ (i : Nat) (a : ℚ), l[i]? = some (some a) →
      (interpolateColumn l)[i]? = some (some a) := by
  induction l with
  | nil => intro i a h; simp at h
  | cons c rest ih =>
      intro i a h
      cases c with
      | none =>
          cases i with
          | zero => simp at h
          | succ i =>
              have h' := ih i a (by simpa using h)
              simpa [interpolateColumn] using h'
      | some b =>
          cases i with
          | zero =>
              have hb : b = a := by simpa using h
              subst hb
              simp [interpolateColumn]
          | succ i =>
              have h' : rest[i]? = some (some a) := by simpa using h
              have hrec := interpGo_getElem rest b 0 i a h'
              simp only [interpolateColumn, List.getElem?_cons_succ, List.getElem?_map]
              rw [show i = 0 + i by omega, hrec]
              rfl

theorem mem_insertSorted {x a : ℚ} : ∀ {l : List ℚ},
    a ∈ insertSorted x l ↔ a = x ∨ a ∈ l := by
  intro l
  induction l with
  | nil => simp [insertSorted]
  | cons y ys ih =>
      by_cases h1 : x < y
      · simp [insertSorted, h1]
      · by_cases h2 : x = y
        · subst h2
          rw [show insertSorted x (x :: ys) = x :: ys from by
            simp [insertSorted, lt_irrefl]]
          simp only [List.mem_cons]
          tauto
        · rw [show insertSorted x (y :: ys) = y :: insertSorted x ys from by
            simp [insertSorted, h1, h2]]
          simp only [List.mem_cons, ih]
          tauto

theorem insertSorted_sorted {x : ℚ} : ∀ {l : List ℚ}, l.Sorted (· ≤ ·) →
    (insertSorted x l).Sorted (· ≤ ·) := by
  intro l
  induction l with
  | nil =>
      intro hs
      simp [insertSorted]
  | cons y ys ih =>
      intro hs
      rw [List.sorted_cons] at hs
      obtain ⟨hy, hys⟩ := hs
      by_cases h1 : x < y
      · rw [show insertSorted x (y :: ys) = x :: y :: ys from by simp [insertSorted, h1]]
        rw [List.sorted_cons]
        refine ⟨?_, List.sorted_cons.mpr ⟨hy, hys⟩⟩
        intro b hb
        rcases List.mem_cons.mp hb with rfl | hb
        · exact le_of_lt h1
        · exact le_trans (le_of_lt h1) (hy b hb)
      · by_cases h2 : x = y
        · rw [show insertSorted x (y :: ys) = y :: ys from by simp [insertSorted, h1, h2]]
          exact List.sorted_cons.mpr ⟨hy, hys⟩
        · rw [show insertSorted x (y :: ys) = y :: insertSorted x ys from by
            simp [insertSorted, h1, h2]]
          rw [List.sorted_cons]
          refine ⟨?_, ih hys⟩
          intro b hb
          rcases mem_insertSorted.mp hb with rfl | hb
          · exact le_of_not_lt h1
          · exact hy b hb

theorem insertSorted_nodup {x : ℚ} : ∀ {l : List ℚ}, l.Sorted (· ≤ ·) → l.Nodup →
    (insertSorted x l).Nodup := by
  intro l
  induction l with
  | nil =>
      intro _ _
      simp [insertSorted]
  | cons y ys ih =>
      intro hs hn
      rw [List.sorted_cons] at hs
      obtain ⟨hy, hys⟩ := hs
      rw [List.nodup_cons] at hn
      obtain ⟨hyn, hysn⟩ := hn
      by_cases h1 : x < y
      · rw [show insertSorted x (y :: ys) = x :: y :: ys from by simp [insertSorted, h1]]
        rw [List.nodup_cons]
        refine ⟨?_, List.nodup_cons.mpr ⟨hyn, hysn⟩⟩
        intro hmem
        rcases List.mem_cons.mp hmem with rfl | hmem
        · exact absurd h1 (lt_irrefl x)
        · exact absurd h1 (not_lt_of_le (hy x hmem))
      · by_cases h2 : x = y
        · rw [show insertSorted x (y :: ys) = y :: ys from by simp [insertSorted, h1, h2]]
          exact List.nodup_cons.mpr ⟨hyn, hysn⟩
        · rw [show insertSorted x (y :: ys) = y :: insertSorted x ys from by
            simp [insertSorted, h1, h2]]
          rw [List.nodup_cons]
          refine ⟨?_, ih hys hysn⟩
          intro hmem
          rcases mem_insertSorted.mp hmem with hE | hmem
          · exact h2 hE.symm
          · exact hyn hmem

theorem dedupSort_cons (x : ℚ) (l : List ℚ) :
    dedupSort (x :: l) = insertSorted x (dedupSort l) := rfl

theorem dedupSort_sorted (l : List ℚ) : (dedupSort l).Sorted (· ≤ ·) := by
  induction l with
  | nil => simp [dedupSort]
  | cons x l ih =>
      rw [dedupSort_cons]
      exact insertSorted_sorted ih

theorem dedupSort_nodup (l : List ℚ) : (dedupSort l).Nodup := by
  induction l with
  | nil => simp [dedupSort]
  | cons x l ih =>
      rw [dedupSort_cons]
      exact insertSorted_nodup (dedupSort_sorted l) ih

theorem mem_dedupSort {a : ℚ} {l : List ℚ} : a ∈ dedupSort l ↔ a ∈ l := by
  induction l with
  | nil => simp [dedupSort]
  | cons x l ih =>
      rw [dedupSort_cons, mem_insertSorted, ih, List.mem_cons]

theorem pivotTriples_eq_cols (df : DF) (pc : String) :
    pivotTriples df pc =
      (((df.getCol "hour").zip (df.getCol "month")).zip (df.getCol pc)).filterMap
        (fun p => match asNum p.1.1, asNum p.1.2 with
          | some h, some m => some (h, m, asNum p.2)
          | _, _ => none) := by
  unfold DF.getCol pivotTriples
  rw [List.zip_map', List.zip_map', List.filterMap_map]
  rfl

theorem gridAt_surfOfTriples (ts : List (ℚ × ℚ × Option ℚ)) (h₀ m₀ v : ℚ)
    (hv : groupMean ts h₀ m₀ = some v)
    (hobs : ∃ t ∈ ts, t.1 = h₀ ∧ t.2.1 = m₀) :
    gridAt (surfOfTriples ts) h₀ m₀ = some v := by
  obtain ⟨t₀, ht₀, hth, htm⟩ := hobs
  have hkey : t₀ ∈ pivotKeys ts := by
    simp only [pivotKeys, List.mem_filter]
    refine ⟨ht₀, ?_⟩
    rw [hth, htm, hv]
    rfl
  have hH : h₀ ∈ pivotHours ts := by
    simp only [pivotHours, mem_dedupSort, List.mem_map]
    exact ⟨t₀, hkey, hth⟩
  have hM : m₀ ∈ pivotMonths ts := by
    simp only [pivotMonths, mem_dedupSort, List.mem_map]
    exact ⟨t₀, hkey, htm⟩
  have hi := List.findIdx?_eq_some_of_exists (p := (· == h₀))
    ⟨h₀, hH, by simp⟩
  have hj := List.findIdx?_eq_some_of_exists (p := (· == m₀))
    ⟨m₀, hM, by simp⟩
  set i := (pivotHours ts).findIdx (· == h₀) with hidef
  set j := (pivotMonths ts).findIdx (· == m₀) with hjdef
  obtain ⟨hilt, hip, -⟩ := List.findIdx?_eq_some_iff_getElem.mp hi
  obtain ⟨hjlt, hjp, -⟩ := List.findIdx?_eq_some_iff_getElem.mp hj
  have hHi : (pivotHours ts)[i] = h₀ := by simpa using hip
  have hMj : (pivotMonths ts)[j] = m₀ := by simpa using hjp
  have hfig : surfOfTriples ts =
      Fig.surface (pivotMonths ts) (pivotHours ts)
        ((List.range (pivotHours ts).length).map
          (fun k => ((pivotMonths ts).map (fun m => filledColumn ts (pivotHours ts) m)).map
            (fun c => c.getD k 0))) := rfl
  rw [hfig]
  show (match (pivotHours ts).findIdx? (· == h₀), (pivotMonths ts).findIdx? (· == m₀) with
    | some i', some j' =>
        ((((List.range (pivotHours ts).length).map
          (fun k => ((pivotMonths ts).map (fun m => filledColumn ts (pivotHours ts) m)).map
            (fun c => c.getD k 0))).getD i' []).get? j')
    | _, _ => none) = some v
  rw [hi, hj]
  show ((((List.range (pivotHours ts).length).map
      (fun k => ((pivotMonths ts).map (fun m => filledColumn ts (pivotHours ts) m)).map
        (fun c => c.getD k 0))).getD i []).get? j) = some v
  have hrow : ((List.range (pivotHours ts).length).map
      (fun k => ((pivotMonths ts).map (fun m => filledColumn ts (pivotHours ts) m)).map
        (fun c => c.getD k 0))).getD i []
      = ((pivotMonths ts).map (fun m => filledColumn ts (pivotHours ts) m)).map
          (fun c => c.getD i 0) := by
    rw [List.getD_eq_getElem?_getD, List.getElem?_map, List.getElem?_range hilt]
    rfl
  rw [hrow]
  have hcell : (filledColumn ts (pivotHours ts) m₀)[i]? = some v := by
    have hin : ((pivotHours ts).map (fun h => groupMean ts h m₀))[i]? = some (some v) := by
      rw [List.getElem?_map, List.getElem?_eq_getElem hilt]
      simp [hHi, hv]
    have hic := interpolateColumn_getElem _ i v hin
    unfold filledColumn
    rw [List.getElem?_map, hic]
    rfl
  rw [List.get?_eq_getElem?, List.getElem?_map, List.getElem?_map,
    List.getElem?_eq_getElem hjlt]
  simp only [Option.map_some', hMj]
  rw [List.getD_eq_getElem?_getD, hcell]
  rfl

/-! ## Lemmas: the preparation pipeline -/

theorem colIdx_mem (df : DF) (c : String) (h : c ∈ df.cols) :
    ∃ j, df.colIdx c = some j ∧ ∃ hj : j < df.cols.length, df.cols[j] = c := by
  have hf := List.findIdx?_eq_some_of_exists (p := (· == c))
    ⟨c, h, by simp⟩
  refine ⟨_, hf, ?_⟩
  obtain ⟨hlt, hp, -⟩ := List.findIdx?_eq_some_iff_getElem.mp hf
  exact ⟨hlt, by simpa using hp⟩

theorem mem_cols_setCol (df : DF) (c : String) (vs : List Cell) :
    c ∈ (df.setCol c vs).cols := by
  unfold DF.setCol
  cases h : df.cols.findIdx? (· == c) with
  | some j =>
      obtain ⟨hlt, hp, -⟩ := List.findIdx?_eq_some_iff_getElem.mp h
      have : df.cols[j] = c := by simpa using hp
      exact this ▸ List.getElem_mem hlt
  | none => simp

theorem setDatetime_eq (df : DF) :
    setDatetime df = df.setCol "datetime" (df.rows.map (fun r =>
      match dtSourceIdx df with
      | some j => parseDT (r.getD j Cell.na)
      | none => Cell.na)) := by
  unfold setDatetime
  cases h : dtSourceIdx df <;> simp only [h]

theorem dropna_cols (d : DF) : (dropnaDatetime d).cols = d.cols := by
  unfold dropnaDatetime
  cases h : d.colIdx "datetime" <;> simp only [h]

theorem dropna_rows (d : DF) {jd : Nat} (hjd : d.colIdx "datetime" = some jd) :
    (dropnaDatetime d).rows = d.rows.filter (fun r => !(r.getD jd Cell.na).isNA) := by
  unfold dropnaDatetime
  simp only [hjd]

theorem choosePrice_cols (d₁ d₂ : DF) (h : d₁.cols = d₂.cols) :
    choosePrice d₁ = choosePrice d₂ := by
  unfold choosePrice
  rw [h]

theorem prepare_fst_eq (df : DF) : (prepare df).1 = dropnaDatetime (setDatetime df) := rfl

theorem prepare_snd_eq (df : DF) : (prepare df).2 = choosePrice (setDatetime df) := by
  show choosePrice (dropnaDatetime (setDatetime df)) = _
  exact choosePrice_cols _ _ (dropna_cols _)

theorem setDatetime_cols (df : DF) :
    (setDatetime df).cols =
      if "datetime" ∈ df.cols then df.cols else df.cols ++ ["datetime"] := by
  rw [setDatetime_eq]
  unfold DF.setCol
  by_cases h : "datetime" ∈ df.cols
  · obtain ⟨j, hj, -⟩ := colIdx_mem df "datetime" h
    simp only [DF.colIdx] at hj
    rw [hj]
    simp [h]
  · have hn : df.cols.findIdx? (· == "datetime") = none := by
      rw [List.findIdx?_eq_none_iff]
      intro x hx
      simp only [beq_eq_false_iff_ne, ne_eq]
      exact fun hE => h (hE ▸ hx)
    rw [hn]
    simp [h]

theorem prepare_snd_choosePrice (df : DF) : (prepare df).2 = choosePrice df := by
  rw [prepare_snd_eq]
  unfold choosePrice
  rw [setDatetime_cols]
  by_cases h : "datetime" ∈ df.cols
  · rw [if_pos h]
  · rw [if_neg h]
    have h1 : ("standardized_price" ∈ df.cols ++ ["datetime"]) ↔
        ("standardized_price" ∈ df.cols) := by
      simp only [List.mem_append, List.mem_singleton, or_iff_left_iff_imp]
      intro hE
      exact absurd hE (by decide)
    have h2 : ("charge" ∈ df.cols ++ ["datetime"]) ↔ ("charge" ∈ df.cols) := by
      simp only [List.mem_append, List.mem_singleton, or_iff_left_iff_imp]
      intro hE
      exact absurd hE (by decide)
    simp only [h1, h2]

theorem prepare_fst_dt (df : DF) (hWF : df.WF) {j : Nat}
    (hdt : "datetime" ∈ df.cols) (hj : df.cols.findIdx? (· == "datetime") = some j) :
    (prepare df).1 =
      ⟨df.cols,
       (df.rows.filter (fun r => !(parseDT (r.getD j Cell.na)).isNA)).map
         (fun r => r.set j (parseDT (r.getD j Cell.na)))⟩ := by
  have hsrc : dtSourceIdx df = some j := by
    unfold dtSourceIdx
    rw [if_pos hdt]
    exact hj
  obtain ⟨hjlt, hjp, -⟩ := List.findIdx?_eq_some_iff_getElem.mp hj
  have h1 : setDatetime df =
      ⟨df.cols, df.rows.map (fun r => r.set j (parseDT (r.getD j Cell.na)))⟩ := by
    rw [setDatetime_eq]
    simp only [hsrc]
    exact setCol_map_replace df "datetime" _ hj
  rw [prepare_fst_eq, h1]
  have hcj : DF.colIdx ⟨df.cols,
      df.rows.map (fun r => r.set j (parseDT (r.getD j Cell.na)))⟩ "datetime" = some j := hj
  unfold dropnaDatetime
  simp only [hcj]
  congr 1
  rw [List.filter_map]
  congr 1
  apply List.filter_congr
  intro r hr
  have hlen : r.length = df.cols.length := hWF r hr
  simp [Function.comp, List.getD_eq_getElem?_getD,
    List.getElem?_set_self (show j < r.length by omega)]

theorem prepare_none_rows (df : DF) (hWF : df.WF) (h : dtSourceIdx df = none) :
    (prepare df).1.rows = [] := by
  have h1 : setDatetime df = df.setCol "datetime" (df.rows.map (fun _ => Cell.na)) := by
    rw [setDatetime_eq]
    simp only [h]
  have hcolv : (setDatetime df).getCol "datetime" = df.rows.map (fun _ => Cell.na) := by
    rw [h1]
    exact getCol_setCol_self df _ _ hWF
  have hmem : "datetime" ∈ (setDatetime df).cols := by
    rw [h1]
    exact mem_cols_setCol df _ _
  obtain ⟨jd, hjd, -⟩ := colIdx_mem (setDatetime df) "datetime" hmem
  rw [prepare_fst_eq, dropna_rows _ hjd, List.filter_eq_nil_iff]
  intro r hr
  have hin : cellAt r (some jd) ∈ (setDatetime df).getCol "datetime" := by
    simp only [DF.getCol]
    rw [show (setDatetime df).colIdx "datetime" = some jd from hjd]
    exact List.mem_map_of_mem _ hr
  rw [hcolv] at hin
  simp only [List.mem_map] at hin
  obtain ⟨r₀, -, hna⟩ := hin
  simp only [cellAt] at hna
  rw [← hna]
  simp [Cell.isNA]

theorem prepared_props (df : DF) (hWF : df.WF) :
    ((prepare df).1).WF ∧ "datetime" ∈ ((prepare df).1).cols ∧
      ∀ cell ∈ ((prepare df).1).getCol "datetime", ∃ t, cell = Cell.time t := by
  have h1 := setDatetime_eq df
  have hWF₁ : (setDatetime df).WF := by
    rw [h1]
    exact setCol_map_WF df _ _ hWF
  have hcolv : (setDatetime df).getCol "datetime" = df.rows.map (fun r =>
      match dtSourceIdx df with
      | some j => parseDT (r.getD j Cell.na)
      | none => Cell.na) := by
    rw [h1]
    exact getCol_setCol_self df _ _ hWF
  have hmem : "datetime" ∈ (setDatetime df).cols := by
    rw [h1]
    exact mem_cols_setCol df _ _
  obtain ⟨jd, hjd, -⟩ := colIdx_mem (setDatetime df) "datetime" hmem
  have hrows₂ : (prepare df).1.rows
      = (setDatetime df).rows.filter (fun r => !(r.getD jd Cell.na).isNA) :=
    (prepare_fst_eq df) ▸ dropna_rows _ hjd
  have hcols₂ : (prepare df).1.cols = (setDatetime df).cols :=
    (prepare_fst_eq df) ▸ dropna_cols _
  refine ⟨?_, ?_, ?_⟩
  · intro r hr
    rw [hrows₂] at hr
    rw [hcols₂]
    exact hWF₁ r (List.mem_of_mem_filter hr)
  · rw [hcols₂]
    exact hmem
  · intro cell hcell
    have hidx : (prepare df).1.colIdx "datetime" = some jd := by
      show (prepare df).1.cols.findIdx? (· == "datetime") = some jd
      rw [hcols₂]
      exact hjd
    simp only [DF.getCol, hidx, hrows₂, List.mem_map] at hcell
    obtain ⟨r, hrmem, hcelleq⟩ := hcell
    obtain ⟨hrrows, hrpred⟩ := List.mem_filter.mp hrmem
    have hin : cellAt r (some jd) ∈ (setDatetime df).getCol "datetime" := by
      simp only [DF.getCol]
      rw [show (setDatetime df).colIdx "datetime" = some jd from hjd]
      exact List.mem_map_of_mem _ hrrows
    rw [hcolv] at hin
    simp only [List.mem_map] at hin
    obtain ⟨r₀, -, hval⟩ := hin
    have hpd : ∀ c0 : Cell, parseDT c0 = Cell.na ∨ ∃ t, parseDT c0 = Cell.time t := by
      intro c0
      cases c0 with
      | na => exact Or.inl rfl
      | num q => exact Or.inl rfl
      | time t => exact Or.inr ⟨t, rfl⟩
      | raw s => exact Or.inl rfl
    have hrange : (match dtSourceIdx df with
        | some j => parseDT (r₀.getD j Cell.na)
        | none => Cell.na) = Cell.na ∨
        ∃ t, (match dtSourceIdx df with
        | some j => parseDT (r₀.getD j Cell.na)
        | none => Cell.na) = Cell.time t := by
      cases dtSourceIdx df with
      | none => exact Or.inl rfl
      | some j => exact hpd _
    rcases hrange with hna | ⟨t, ht⟩
    · rw [hna] at hval
      simp only [cellAt] at hval
      rw [← hval] at hrpred
      simp [Cell.isNA] at hrpred
    · rw [ht] at hval
      simp only [cellAt] at hval
      exact ⟨t, by rw [← hcelleq]; simp only [cellAt]; exact hval.symm⟩

theorem setCol_map_rows_length (df : DF) (c : String) (g : List Cell → Cell) :
    (df.setCol c (df.rows.map g)).rows.length = df.rows.length := by
  cases h : df.cols.findIdx? (· == c) with
  | some j => rw [setCol_map_replace df c g h]; exact List.length_map _ _
  | none => rw [setCol_map_append df c g h]; exact List.length_map _ _

theorem addMonthHour_getCol (df : DF) (hWF : df.WF) :
    (addMonthHour df).getCol "month" = (df.getCol "datetime").map monthOf ∧
    (addMonthHour df).getCol "hour" = (df.getCol "datetime").map hourOf ∧
    (∀ pc, pc ≠ "month" → pc ≠ "hour" →
      (addMonthHour df).getCol pc = df.getCol pc) ∧
    (addMonthHour df).WF := by
  have e1 : (df.getCol "datetime").map monthOf
      = df.rows.map (fun r => monthOf (cellAt r (df.colIdx "datetime"))) := by
    simp only [DF.getCol, List.map_map]
    rfl
  have hWF₁ : (df.setCol "month" ((df.getCol "datetime").map monthOf)).WF := by
    rw [e1]
    exact setCol_map_WF df _ _ hWF
  have hm₁ : (df.setCol "month" ((df.getCol "datetime").map monthOf)).getCol "month"
      = (df.getCol "datetime").map monthOf := by
    rw [e1]
    exact getCol_setCol_self df _ _ hWF
  have hne₁ : ∀ c', c' ≠ "month" →
      (df.setCol "month" ((df.getCol "datetime").map monthOf)).getCol c'
        = df.getCol c' := by
    intro c' hc'
    rw [e1]
    exact getCol_setCol_ne df _ c' _ hWF hc'
  have e2 : ((df.setCol "month" ((df.getCol "datetime").map monthOf)).getCol
        "datetime").map hourOf
      = (df.setCol "month" ((df.getCol "datetime").map monthOf)).rows.map
          (fun r => hourOf (cellAt r
            ((df.setCol "month" ((df.getCol "datetime").map monthOf)).colIdx
              "datetime"))) := by
    simp only [DF.getCol, List.map_map]
    rfl
  have hAdd : addMonthHour df
      = (df.setCol "month" ((df.getCol "datetime").map monthOf)).setCol "hour"
          (((df.setCol "month" ((df.getCol "datetime").map monthOf)).getCol
            "datetime").map hourOf) := rfl
  refine ⟨?_, ?_, ?_, ?_⟩
  · rw [hAdd, e2, getCol_setCol_ne _ _ _ _ hWF₁ (by decide)]
    exact hm₁
  · rw [hAdd, e2, getCol_setCol_self _ _ _ hWF₁, ← e2, hne₁ "datetime" (by decide)]
  · intro pc hpcm hpch
    rw [hAdd, e2, getCol_setCol_ne _ _ _ _ hWF₁ hpch]
    exact hne₁ pc hpcm
  · rw [hAdd, e2]
    exact setCol_map_WF _ _ _ hWF₁

theorem build_eq_mkSurface (src : Except String DF) {df : DF} {pc : String}
    (h : get_surface_data src = (df, some pc)) (hr : df.rows ≠ []) (hc : df.cols ≠ []) :
    build_surface_figure src = mkSurface (addMonthHour df) pc := by
  have he : df.empty = false := by
    unfold DF.empty
    simp [hr, hc]
  simp only [build_surface_figure, h, he]
  rfl

theorem build_blank_of (src : Except String DF)
    (h : (get_surface_data src).1.empty = true ∨ (get_surface_data src).2 = none) :
    build_surface_figure src = Fig.blank := by
  simp only [build_surface_figure]
  rcases h with h | h
  · simp [h]
  · simp [h]

/-! ## Claims -/

/-- Claim C3: whatever the upstream `load_master` does — raising an
exception (`Except.error`) or returning a table of any shape (`Except.ok`) —
`get_surface_data` is a total function that never propagates the error: on an
exception it returns the empty table together with an absent price field. -/
theorem C3_preparation_never_raises :
    (∀ e : String, get_surface_data (Except.error e) = (⟨[], []⟩, none)) ∧
    (∀ df : DF, get_surface_data (Except.ok df) = prepare df) :=
  ⟨fun _ => rfl, fun _ => rfl⟩

/-- Claim C4: the price field of the prepared pair follows the fixed
priority order: `standardized_price` when that column exists, else `charge`
when that column exists, else absent. -/
theorem C4_price_priority (df : DF) :
    (get_surface_data (Except.ok df)).2 =
      if "standardized_price" ∈ df.cols then some "standardized_price"
      else if "charge" ∈ df.cols then some "charge" else none := by
  show (prepare df).2 = _
  rw [prepare_snd_choosePrice]
  rfl

/-- Claim C5: whenever the prepared table is empty or the price field is
absent — in particular whenever neither `standardized_price` nor `charge`
occurs among the input columns — `build_surface_figure` returns the blank
artifact (and, being a total function, does not raise). -/
theorem C5_blank_on_missing_price :
    (∀ src : Except String DF,
      (get_surface_data src).1.empty = true ∨ (get_surface_data src).2 = none →
        build_surface_figure src = Fig.blank) ∧
    (∀ df : DF, "standardized_price" ∉ df.cols → "charge" ∉ df.cols →
        build_surface_figure (Except.ok df) = Fig.blank) := by
  constructor
  · exact fun src h => build_blank_of src h
  · intro df h1 h2
    apply build_blank_of
    right
    show (prepare df).2 = none
    rw [prepare_snd_choosePrice]
    unfold choosePrice
    rw [if_neg h1, if_neg h2]

/-- Witness for C5 at a concrete table having neither price column. -/
theorem C5_blank_on_missing_price_witness :
    build_surface_figure (Except.ok ⟨["foo"], [[Cell.num 1]]⟩) = Fig.blank :=
  C5_blank_on_missing_price.2 ⟨["foo"], [[Cell.num 1]]⟩ (by decide) (by decide)

/-- Claim C6: when no column is named `datetime` and no column name contains
`date` or `time` case-insensitively, the prepared table has zero rows and the
build step returns the blank artifact. -/
theorem C6_no_timestamp_column (df : DF) (hWF : df.WF)
    (h1 : "datetime" ∉ df.cols) (h2 : ∀ c ∈ df.cols, isDTName c = false) :
    (get_surface_data (Except.ok df)).1.rows = [] ∧
      build_surface_figure (Except.ok df) = Fig.blank := by
  have hsrc : dtSourceIdx df = none := by
    unfold dtSourceIdx
    rw [if_neg h1]
    have hfil : df.cols.filter isDTName = [] := List.filter_eq_nil_iff.mpr (by
      intro c hc
      simp [h2 c hc])
    rw [hfil]
    rfl
  have hrows : (prepare df).1.rows = [] := prepare_none_rows df hWF hsrc
  refine ⟨hrows, ?_⟩
  apply build_blank_of
  left
  show ((prepare df).1).empty = true
  unfold DF.empty
  rw [hrows]
  rfl

/-- Witness for C6 at `exampleC`, whose column names `foo` and `charge`
contain neither `date` nor `time`. -/
theorem C6_no_timestamp_column_witness :
    (get_surface_data (Except.ok exampleC)).1.rows = [] ∧
      build_surface_figure (Except.ok exampleC) = Fig.blank :=
  C6_no_timestamp_column exampleC
    (by
      show ∀ r ∈ exampleC.rows, r.length = exampleC.cols.length
      decide)
    (by decide) (by decide)

theorem build_st_figCache (src : Except String DF) (s : PState) :
    (build_surface_figure_st src s).2.figCache
      = some (build_surface_figure_st src s).1 := by
  unfold build_surface_figure_st
  cases h : s.figCache with
  | some f => simp [h]
  | none =>
      simp only [h]
      split
      · rfl
      · rfl

/-- Claim C7: a second call of the memoized `build_surface_figure` in the
same process returns output identical to the first call's, whatever the
upstream source would produce on the second fetch — the figure cache has no
key, no expiry and no invalidation. -/
theorem C7_build_memoized (src1 src2 : Except String DF) (s0 : PState) :
    (build_surface_figure_st src2 (build_surface_figure_st src1 s0).2).1
      = (build_surface_figure_st src1 s0).1 := by
  have h1 := build_st_figCache src1 s0
  generalize hp : build_surface_figure_st src1 s0 = p at h1 ⊢
  simp [build_surface_figure_st, h1]

theorem readDF_of_le (s : PState) {r : Nat} (h : s.heap.length ≤ r) :
    readDF s r = ⟨[], []⟩ := by
  simp [readDF, List.getD_eq_getElem?_getD, List.getElem?_eq_none h]

/-- Claim C10: the build step never mutates the pair memoized by
`get_surface_data`: `month`/`hour` are added to a `df.copy()`, so a cached
table reference present before a build still reads the same table afterwards,
and when both caches start empty the table cached by a build is exactly the
pure preparation output — no extra columns, no changed values. -/
theorem C10_build_no_mutation (src : Except String DF) (s0 : PState) :
    (∀ r pcache, s0.surfCache = some (r, pcache) →
      (build_surface_figure_st src s0).2.surfCache = some (r, pcache) ∧
      readDF (build_surface_figure_st src s0).2 r = readDF s0 r) ∧
    (s0.surfCache = none → s0.figCache = none →
      (build_surface_figure_st src s0).2.surfCache
          = some (s0.heap.length, (get_surface_data src).2) ∧
      readDF (build_surface_figure_st src s0).2 s0.heap.length
          = (get_surface_data src).1) := by
  constructor
  · intro r pcache hcache
    cases hfc : s0.figCache with
    | some f =>
        simp only [build_surface_figure_st, hfc]
        exact ⟨hcache, trivial⟩
    | none =>
        simp only [build_surface_figure_st, get_surface_data_st, hfc, hcache,
          alloc, writeDF, readDF]
        by_cases hg : ((s0.heap.getD r ⟨[], []⟩).empty || pcache.isNone) = true
        · rw [if_pos hg]
          exact ⟨rfl, rfl⟩
        · rw [if_neg hg]
          have hrlt : r < s0.heap.length := by
            by_contra hge
            push_neg at hge
            rw [List.getD_eq_getElem?_getD, List.getElem?_eq_none hge] at hg
            exact hg rfl
          refine ⟨rfl, ?_⟩
          show ((s0.heap ++ [s0.heap.getD r ⟨[], []⟩]).set s0.heap.length _).getD r ⟨[], []⟩
            = s0.heap.getD r ⟨[], []⟩
          rw [List.getD_eq_getElem?_getD, List.getD_eq_getElem?_getD,
            List.getElem?_set_ne (show s0.heap.length ≠ r by omega),
            List.getElem?_append_left hrlt]
  · intro hsc hfc
    simp only [build_surface_figure_st, get_surface_data_st, hfc, hsc,
      alloc, writeDF, readDF]
    by_cases hg : (((s0.heap ++ [(get_surface_data src).1]).getD s0.heap.length
        ⟨[], []⟩).empty || (get_surface_data src).2.isNone) = true
    · rw [if_pos hg]
      refine ⟨rfl, ?_⟩
      show (s0.heap ++ [(get_surface_data src).1]).getD s0.heap.length ⟨[], []⟩
        = (get_surface_data src).1
      rw [List.getD_eq_getElem?_getD, List.getElem?_append_right (Nat.le_refl _)]
      simp
    · rw [if_neg hg]
      refine ⟨rfl, ?_⟩
      show (((s0.heap ++ [(get_surface_data src).1])
            ++ [(s0.heap ++ [(get_surface_data src).1]).getD s0.heap.length ⟨[], []⟩]).set
              (s0.heap ++ [(get_surface_data src).1]).length _).getD s0.heap.length ⟨[], []⟩
        = (get_surface_data src).1
      rw [List.getD_eq_getElem?_getD,
        List.getElem?_set_ne
          (show (s0.heap ++ [(get_surface_data src).1]).length ≠ s0.heap.length by
            rw [List.length_append, List.length_singleton]; omega),
        List.getElem?_append_left
          (show s0.heap.length < (s0.heap ++ [(get_surface_data src).1]).length by
            rw [List.length_append, List.length_singleton]; omega),
        List.getElem?_append_right (Nat.le_refl _)]
      simp

/-- Witness for C10 on a fresh process building from `exampleA`. -/
theorem C10_build_no_mutation_witness :
    freshState.surfCache = none ∧ freshState.figCache = none ∧
      ((build_surface_figure_st (Except.ok exampleA) freshState).2.surfCache
          = some (freshState.heap.length, (get_surface_data (Except.ok exampleA)).2) ∧
        readDF (build_surface_figure_st (Except.ok exampleA) freshState).2
            freshState.heap.length
          = (get_surface_data (Except.ok exampleA)).1) :=
  ⟨rfl, rfl, (C10_build_no_mutation (Except.ok exampleA) freshState).2 rfl rfl⟩

theorem head?_filter_eq {α} (p : α → Bool) :
    ∀ l : List α, (l.filter p).head? = l.find? p := by
  intro l
  induction l with
  | nil => rfl
  | cons a l ih =>
      rw [List.filter_cons]
      by_cases h : p a
      · simp [h]
      · simp [h, ih]

/-- Claim C8: the timestamp source follows the fixed priority: a column
literally named `datetime` is parsed first (unparseable cells coerced to
missing by the total `parseDT`, never raising); otherwise the first column
whose name contains `date` or `time` case-insensitively is the parse source;
otherwise every record's timestamp is missing. -/
theorem C8_timestamp_resolution (df : DF) (hWF : df.WF) :
    ("datetime" ∈ df.cols →
      (setDatetime df).getCol "datetime" = (df.getCol "datetime").map parseDT) ∧
    ("datetime" ∉ df.cols → ∀ c, df.cols.find? isDTName = some c →
      (setDatetime df).getCol "datetime" = (df.getCol c).map parseDT) ∧
    ("datetime" ∉ df.cols → df.cols.find? isDTName = none →
      (setDatetime df).getCol "datetime" = df.rows.map (fun _ => Cell.na)) := by
  have hbase : (setDatetime df).getCol "datetime"
      = df.rows.map (fun r =>
          match dtSourceIdx df with
          | some j => parseDT (r.getD j Cell.na)
          | none => Cell.na) := by
    rw [setDatetime_eq]
    exact getCol_setCol_self df _ _ hWF
  refine ⟨?_, ?_, ?_⟩
  · intro hdt
    obtain ⟨j, hjc, -⟩ := colIdx_mem df "datetime" hdt
    have hsrc : dtSourceIdx df = some j := by
      unfold dtSourceIdx
      rw [if_pos hdt]
      exact hjc
    rw [hbase]
    simp only [hsrc]
    show _ = (df.rows.map (fun r => cellAt r (df.colIdx "datetime"))).map parseDT
    rw [List.map_map]
    apply List.map_congr_left
    intro r hr
    rw [hjc]
    rfl
  · intro hdt c hfind
    have hcmem : c ∈ df.cols := List.mem_of_find?_eq_some hfind
    obtain ⟨j, hjc, -⟩ := colIdx_mem df c hcmem
    have hsrc : dtSourceIdx df = some j := by
      unfold dtSourceIdx
      rw [if_neg hdt, head?_filter_eq isDTName df.cols, hfind]
      exact hjc
    rw [hbase]
    simp only [hsrc]
    show _ = (df.rows.map (fun r => cellAt r (df.colIdx c))).map parseDT
    rw [List.map_map]
    apply List.map_congr_left
    intro r hr
    rw [hjc]
    rfl
  · intro hdt hfind
    have hsrc : dtSourceIdx df = none := by
      unfold dtSourceIdx
      rw [if_neg hdt, head?_filter_eq isDTName df.cols, hfind]
    rw [hbase]
    simp only [hsrc]

/-- Witness for C8 at `exampleD`: no `datetime` column, and `Trade Time` is
the first (and only) candidate column. -/
theorem C8_timestamp_resolution_witness :
    (setDatetime exampleD).getCol "datetime"
      = (exampleD.getCol "Trade Time").map parseDT :=
  (C8_timestamp_resolution exampleD (by
      show ∀ r ∈ exampleD.rows, r.length = exampleD.cols.length
      decide)).2.1 (by decide) "Trade Time" (by decide)

theorem pivotTriples_bounds (df : DF) (hWF : df.WF) (pc : String)
    {tr : ℚ × ℚ × Option ℚ} (htr : tr ∈ pivotTriples (addMonthHour df) pc) :
    (∃ n : ℕ, tr.1 = (n : ℚ) ∧ n ≤ 23) ∧
    (∃ n : ℕ, tr.2.1 = (n : ℚ) ∧ 1 ≤ n ∧ n ≤ 12) := by
  obtain ⟨hm, hh, -, -⟩ := addMonthHour_getCol df hWF
  rw [pivotTriples_eq_cols] at htr
  simp only [List.mem_filterMap] at htr
  obtain ⟨p, hp, hfp⟩ := htr
  obtain ⟨⟨c1, c2⟩, c3⟩ := p
  obtain ⟨hp12, -⟩ := List.of_mem_zip hp
  obtain ⟨hp1, hp2⟩ := List.of_mem_zip hp12
  rw [hh] at hp1
  rw [hm] at hp2
  simp only [List.mem_map] at hp1 hp2
  obtain ⟨d1, -, hd1⟩ := hp1
  obtain ⟨d2, -, hd2⟩ := hp2
  subst hd1
  subst hd2
  cases d1 <;> cases d2 <;> simp only [hourOf, monthOf, asNum] at hfp <;>
    try exact Option.noConfusion hfp
  case time.time t1 t2 =>
    obtain rfl := Option.some.inj hfp
    refine ⟨⟨t1.hour.val, rfl, by omega⟩, ⟨t2.month.val + 1, by push_cast; ring, by omega,
      by have := t2.month.isLt; omega⟩⟩

/-- Claim C9: for a non-empty prepared table with a resolved price field, the
figure is a surface of three aligned arrays: the x-axis is sorted and
duplicate-free with every value a calendar month in 1..12, the y-axis is
sorted and duplicate-free with every value an hour in 0..23, and the z-grid
has one row per y-value and one column per x-value. -/
theorem C9_surface_shape (df₀ : DF) (hWF : df₀.WF) (df : DF) (pc : String)
    (hprep : get_surface_data (Except.ok df₀) = (df, some pc))
    (hne : df.rows ≠ []) :
    ∃ x y z, build_surface_figure (Except.ok df₀) = Fig.surface x y z ∧
      x.Sorted (· ≤ ·) ∧ x.Nodup ∧
      (∀ v ∈ x, ∃ n : ℕ, v = (n : ℚ) ∧ 1 ≤ n ∧ n ≤ 12) ∧
      y.Sorted (· ≤ ·) ∧ y.Nodup ∧
      (∀ v ∈ y, ∃ n : ℕ, v = (n : ℚ) ∧ n ≤ 23) ∧
      z.length = y.length ∧ (∀ row ∈ z, row.length = x.length) := by
  have hpf : (prepare df₀).1 = df := congrArg Prod.fst hprep
  obtain ⟨hWFp, hdtmem, -⟩ := prepared_props df₀ hWF
  rw [hpf] at hWFp hdtmem
  have hcols : df.cols ≠ [] := List.ne_nil_of_mem hdtmem
  rw [build_eq_mkSurface (Except.ok df₀) hprep hne hcols]
  refine ⟨pivotMonths (pivotTriples (addMonthHour df) pc),
    pivotHours (pivotTriples (addMonthHour df) pc), _, rfl,
    dedupSort_sorted _, dedupSort_nodup _, ?_,
    dedupSort_sorted _, dedupSort_nodup _, ?_, ?_, ?_⟩
  · intro v hv
    have hv' : v ∈ (pivotKeys (pivotTriples (addMonthHour df) pc)).map
        (fun t => t.2.1) := mem_dedupSort.mp hv
    simp only [List.mem_map] at hv'
    obtain ⟨tr, htrk, htrv⟩ := hv'
    have htr : tr ∈ pivotTriples (addMonthHour df) pc :=
      (List.mem_filter.mp htrk).1
    obtain ⟨-, n, hn, h1, h2⟩ := pivotTriples_bounds df hWFp pc htr
    exact ⟨n, htrv ▸ hn, h1, h2⟩
  · intro v hv
    have hv' : v ∈ (pivotKeys (pivotTriples (addMonthHour df) pc)).map
        (fun t => t.1) := mem_dedupSort.mp hv
    simp only [List.mem_map] at hv'
    obtain ⟨tr, htrk, htrv⟩ := hv'
    have htr : tr ∈ pivotTriples (addMonthHour df) pc :=
      (List.mem_filter.mp htrk).1
    obtain ⟨⟨n, hn, h1⟩, -⟩ := pivotTriples_bounds df hWFp pc htr
    exact ⟨n, htrv ▸ hn, h1⟩
  · show ((List.range (pivotHours (pivotTriples (addMonthHour df) pc)).length).map _).length
      = (pivotHours (pivotTriples (addMonthHour df) pc)).length
    rw [List.length_map, List.length_range]
  · intro row hrow
    simp only [List.mem_map] at hrow
    obtain ⟨i, -, hrw⟩ := hrow
    rw [← hrw, List.length_map, List.length_map]

/-- Witness for C9 at `exampleA` (whose prepared table is `exampleA` itself
with price field `standardized_price`). -/
theorem C9_surface_shape_witness :
    ∃ x y z, build_surface_figure (Except.ok exampleA) = Fig.surface x y z ∧
      x.Sorted (· ≤ ·) ∧ x.Nodup ∧
      (∀ v ∈ x, ∃ n : ℕ, v = (n : ℚ) ∧ 1 ≤ n ∧ n ≤ 12) ∧
      y.Sorted (· ≤ ·) ∧ y.Nodup ∧
      (∀ v ∈ y, ∃ n : ℕ, v = (n : ℚ) ∧ n ≤ 23) ∧
      z.length = y.length ∧ (∀ row ∈ z, row.length = x.length) :=
  C9_surface_shape exampleA
    (by
      show ∀ r ∈ exampleA.rows, r.length = exampleA.cols.length
      decide)
    exampleA "standardized_price" (by decide) (by decide)

theorem hourBeq (t : Ts) (h : Fin 24) :
    (((t.hour.val : ℚ)) == ((h.val : ℚ))) = decide (t.hour = h) := by
  rw [Bool.beq_eq_decide_eq, decide_eq_decide]
  constructor
  · intro hq
    exact Fin.ext (Nat.cast_inj.mp hq)
  · intro hq
    rw [hq]

theorem monthBeq (t : Ts) (m : Fin 12) :
    ((((t.month.val : ℚ) + 1)) == (((m.val : ℚ) + 1))) = decide (t.month = m) := by
  rw [Bool.beq_eq_decide_eq, decide_eq_decide]
  constructor
  · intro hq
    exact Fin.ext (Nat.cast_inj.mp (add_right_cancel hq))
  · intro hq
    rw [hq]

theorem groupMean_eq (ts : List (ℚ × ℚ × Option ℚ)) (h m : ℚ) :
    groupMean ts h m =
      if ((ts.filter (fun t => t.1 == h && t.2.1 == m)).filterMap
          (fun t => t.2.2)).isEmpty
      then none
      else some
        (((ts.filter (fun t => t.1 == h && t.2.1 == m)).filterMap
            (fun t => t.2.2)).sum
          / ((ts.filter (fun t => t.1 == h && t.2.1 == m)).filterMap
            (fun t => t.2.2)).length) := rfl

/-- Claim C1: for every rectangular input table with a `datetime` column, a
`standardized_price` column, and at least one record whose parsed timestamp
has hour `h` and month `m` (prices numeric at the records of that group),
the grid value of the built surface at (hour `h`, month `m`) is the
arithmetic mean of `standardized_price` over exactly those records. -/
theorem C1_grid_mean (df : DF) (hWF : df.WF) (h : Fin 24) (m : Fin 12)
    (hdt : "datetime" ∈ df.cols)
    (hsp : "standardized_price" ∈ df.cols)
    (hnum : ∀ r ∈ df.rows, ∀ t : Ts, cellAt r (df.colIdx "datetime") = Cell.time t →
      t.hour = h → t.month = m →
      ∃ q, cellAt r (df.colIdx "standardized_price") = Cell.num q)
    (hobs : ∃ r ∈ df.rows, ∃ t : Ts, cellAt r (df.colIdx "datetime") = Cell.time t ∧
      t.hour = h ∧ t.month = m) :
    gridAt (build_surface_figure (Except.ok df)) ((h.val : ℚ)) ((m.val : ℚ) + 1)
      = some ((groupPrices df h m).sum / (groupPrices df h m).length) := by
  obtain ⟨jd, hjd, hjdlt, hjdname⟩ := colIdx_mem df "datetime" hdt
  obtain ⟨jp, hjp, hjplt, hjpname⟩ := colIdx_mem df "standardized_price" hsp
  have hjne : jd ≠ jp := by
    intro hE
    subst hE
    exact absurd (hjdname.symm.trans hjpname) (by decide)
  set K : List (List Cell) :=
    df.rows.filter (fun r => !(parseDT (r.getD jd Cell.na)).isNA) with hK
  set F : List Cell → List Cell :=
    (fun r => r.set jd (parseDT (r.getD jd Cell.na))) with hF
  have hP : (prepare df).1 = ⟨df.cols, K.map F⟩ := prepare_fst_dt df hWF hdt hjd
  have hprice : (prepare df).2 = some "standardized_price" := by
    rw [prepare_snd_choosePrice]
    unfold choosePrice
    rw [if_pos hsp]
  have hpair : get_surface_data (Except.ok df)
      = (⟨df.cols, K.map F⟩, some "standardized_price") := by
    show prepare df = _
    rw [← hP, ← hprice]
  obtain ⟨r₀, hr₀, t₀, hc₀, hh₀, hm₀⟩ := hobs
  rw [hjd] at hc₀
  have hc₀' : r₀.getD jd Cell.na = Cell.time t₀ := hc₀
  have hr₀K : r₀ ∈ K := by
    rw [hK]
    refine List.mem_filter.mpr ⟨hr₀, ?_⟩
    rw [hc₀']
    rfl
  have hKne : K ≠ [] := List.ne_nil_of_mem hr₀K
  have hrowsne : (K.map F) ≠ [] := fun hE => hKne (List.map_eq_nil_iff.mp hE)
  have hbuild := build_eq_mkSurface (Except.ok df) hpair hrowsne
    (List.ne_nil_of_mem hdt)
  have hKmem : ∀ r ∈ K, r ∈ df.rows := by
    intro r hr
    rw [hK] at hr
    exact List.mem_of_mem_filter hr
  have hWFP : (⟨df.cols, K.map F⟩ : DF).WF := by
    intro r hr
    have hr' : r ∈ K.map F := hr
    simp only [List.mem_map] at hr'
    obtain ⟨r₁, hr₁, rfl⟩ := hr'
    show (r₁.set jd (parseDT (r₁.getD jd Cell.na))).length = df.cols.length
    rw [List.length_set]
    exact hWF r₁ (hKmem r₁ hr₁)
  have hPdt : (⟨df.cols, K.map F⟩ : DF).getCol "datetime"
      = K.map (fun r => parseDT (r.getD jd Cell.na)) := by
    show (K.map F).map
        (fun r => cellAt r ((⟨df.cols, K.map F⟩ : DF).colIdx "datetime")) = _
    rw [show (⟨df.cols, K.map F⟩ : DF).colIdx "datetime" = some jd from hjd]
    rw [List.map_map]
    apply List.map_congr_left
    intro r hr
    have hlen : r.length = df.cols.length := hWF r (hKmem r hr)
    show (r.set jd (parseDT (r.getD jd Cell.na))).getD jd Cell.na
      = parseDT (r.getD jd Cell.na)
    rw [List.getD_eq_getElem?_getD,
      List.getElem?_set_self (show jd < r.length by omega)]
    rfl
  have hPsp : (⟨df.cols, K.map F⟩ : DF).getCol "standardized_price"
      = K.map (fun r => r.getD jp Cell.na) := by
    show (K.map F).map
        (fun r => cellAt r ((⟨df.cols, K.map F⟩ : DF).colIdx "standardized_price")) = _
    rw [show (⟨df.cols, K.map F⟩ : DF).colIdx "standardized_price" = some jp from hjp]
    rw [List.map_map]
    apply List.map_congr_left
    intro r hr
    show (r.set jd (parseDT (r.getD jd Cell.na))).getD jp Cell.na = r.getD jp Cell.na
    rw [List.getD_eq_getElem?_getD, List.getElem?_set_ne hjne,
      ← List.getD_eq_getElem?_getD]
  obtain ⟨hMcol, hHcol, hOther, hWF3⟩ := addMonthHour_getCol ⟨df.cols, K.map F⟩ hWFP
  have hPCcol : (addMonthHour ⟨df.cols, K.map F⟩).getCol "standardized_price"
      = K.map (fun r => r.getD jp Cell.na) := by
    rw [hOther "standardized_price" (by decide) (by decide), hPsp]
  have hHcol' : (addMonthHour ⟨df.cols, K.map F⟩).getCol "hour"
      = K.map (fun r => hourOf (parseDT (r.getD jd Cell.na))) := by
    rw [hHcol, hPdt, List.map_map]
    rfl
  have hMcol' : (addMonthHour ⟨df.cols, K.map F⟩).getCol "month"
      = K.map (fun r => monthOf (parseDT (r.getD jd Cell.na))) := by
    rw [hMcol, hPdt, List.map_map]
    rfl
  have hts : pivotTriples (addMonthHour ⟨df.cols, K.map F⟩) "standardized_price"
      = K.filterMap (fun r =>
          match asNum (hourOf (parseDT (r.getD jd Cell.na))),
                asNum (monthOf (parseDT (r.getD jd Cell.na))) with
          | some h', some m' => some (h', m', asNum (r.getD jp Cell.na))
          | _, _ => none) := by
    rw [pivotTriples_eq_cols, hHcol', hMcol', hPCcol]
    rw [List.zip_map', List.zip_map', List.filterMap_map]
    rfl
  have htr₀ : (((h.val : ℚ)), (((m.val : ℚ) + 1)), asNum (r₀.getD jp Cell.na))
      ∈ pivotTriples (addMonthHour ⟨df.cols, K.map F⟩) "standardized_price" := by
    rw [hts]
    refine List.mem_filterMap.mpr ⟨r₀, hr₀K, ?_⟩
    rw [hc₀']
    show some (((t₀.hour.val : ℚ)), (((t₀.month.val : ℚ) + 1)),
      asNum (r₀.getD jp Cell.na)) = _
    rw [hh₀, hm₀]
  have hvs : ((pivotTriples (addMonthHour ⟨df.cols, K.map F⟩)
        "standardized_price").filter
        (fun tr => tr.1 == ((h.val : ℚ)) && tr.2.1 == ((m.val : ℚ) + 1))).filterMap
          (fun tr => tr.2.2)
      = groupPrices df h m := by
    rw [hts, List.filter_filterMap, List.filterMap_filterMap, hK,
      List.filterMap_filter]
    unfold groupPrices
    apply List.filterMap_congr
    intro r hr
    rw [hjd, hjp]
    simp only [cellAt]
    cases hc : r.getD jd Cell.na with
    | time t =>
        rw [if_pos (show (!(parseDT (Cell.time t)).isNA) = true from rfl)]
        show ((some (((t.hour.val : ℚ)), (((t.month.val : ℚ) + 1)),
            asNum (r.getD jp Cell.na))).filter
            (fun tr => tr.1 == ((h.val : ℚ)) && tr.2.1 == ((m.val : ℚ) + 1))).bind
              (fun tr => tr.2.2)
          = if t.hour = h ∧ t.month = m then asNum (r.getD jp Cell.na) else none
        by_cases hE : t.hour = h ∧ t.month = m
        · obtain ⟨hE1, hE2⟩ := hE
          rw [hE1, hE2]
          simp [Option.filter]
        · rw [if_neg hE]
          simp only [Option.filter, hourBeq t h, monthBeq t m, ← Bool.decide_and,
            decide_eq_false hE]
          rfl
    | na =>
        rw [if_neg (show ¬((!(parseDT Cell.na).isNA) = true) from
          fun hE => Bool.false_ne_true hE)]
    | num q =>
        rw [if_neg (show ¬((!(parseDT (Cell.num q)).isNA) = true) from
          fun hE => Bool.false_ne_true hE)]
    | raw s0 =>
        rw [if_neg (show ¬((!(parseDT (Cell.raw s0)).isNA) = true) from
          fun hE => Bool.false_ne_true hE)]
  obtain ⟨q₀, hq₀⟩ := hnum r₀ hr₀ t₀ (by rw [hjd]; exact hc₀') hh₀ hm₀
  rw [hjp] at hq₀
  have hq₀' : r₀.getD jp Cell.na = Cell.num q₀ := hq₀
  have hgrpmem : q₀ ∈ groupPrices df h m := by
    unfold groupPrices
    refine List.mem_filterMap.mpr ⟨r₀, hr₀, ?_⟩
    rw [hjd, hjp]
    simp only [cellAt]
    rw [hc₀']
    show (if t₀.hour = h ∧ t₀.month = m then asNum (r₀.getD jp Cell.na) else none)
      = some q₀
    rw [if_pos ⟨hh₀, hm₀⟩, hq₀']
    rfl
  have hgrpne : groupPrices df h m ≠ [] := List.ne_nil_of_mem hgrpmem
  have hmean : groupMean (pivotTriples (addMonthHour ⟨df.cols, K.map F⟩)
        "standardized_price") ((h.val : ℚ)) ((m.val : ℚ) + 1)
      = some ((groupPrices df h m).sum / (groupPrices df h m).length) := by
    rw [groupMean_eq, hvs]
    rw [if_neg (fun hE => hgrpne (List.isEmpty_iff.mp hE))]
  rw [hbuild]
  exact gridAt_surfOfTriples _ _ _ _ hmean
    ⟨(((h.val : ℚ)), (((m.val : ℚ) + 1)), asNum (r₀.getD jp Cell.na)), htr₀, rfl, rfl⟩

/-- Witness for C1 at `exampleB`, cell (hour 0, month 1): one record with
price 10, so the grid holds the mean of the singleton group. -/
theorem C1_grid_mean_witness :
    gridAt (build_surface_figure (Except.ok exampleB))
        (((0 : Fin 24).val : ℚ)) ((((0 : Fin 12)).val : ℚ) + 1)
      = some ((groupPrices exampleB 0 0).sum / (groupPrices exampleB 0 0).length) :=
  C1_grid_mean exampleB
    (by
      show ∀ r ∈ exampleB.rows, r.length = exampleB.cols.length
      decide)
    0 0 (by decide) (by decide)
    (by
      intro r hr t hc hth htm
      fin_cases hr
      · exact ⟨10, rfl⟩
      · exact ⟨20, rfl⟩
      · exact ⟨5, rfl⟩)
    ⟨[Cell.time ⟨0, 0⟩, Cell.num 10], by decide, ⟨0, 0⟩, by decide, rfl, rfl⟩

/-- Counterexample to C2 as stated: for the records
[(h=0,m=1,price=10), (h=2,m=1,price=20)] the pivot index only carries the
observed hours 0 and 2, so the grid is the 2×1 matrix [[10],[20]]: there is
no hour-1 row for month 1 (`gridAt` is `none` there), and the positional
reading `grid[1][1]` is out of bounds — the claimed `grid[1][1] == 15` is
false. -/
theorem C2_counterexample :
    build_surface_figure (Except.ok exampleA) = Fig.surface [1] [0, 2] [[10], [20]] ∧
    gridAt (build_surface_figure (Except.ok exampleA)) 1 1 = none ∧
    (([[10], [20]] : List (List ℚ)).getD 1 []).get? 1 = none := by
  refine ⟨by decide, by decide, by decide⟩

/-- Claim C2 (amended): linear interpolation fills an interior one-cell gap
of a month column with the midpoint of its two known neighbours — a value on
the straight line between them; but the pivot axes only carry observed
values: a month absent from the surviving groups contributes no column at
all (rather than a zero column), and for the spec's two-record example the
grid has no hour-1 row (it is `[[10],[20]]`).  After adding a third record
(h=1, m=2, price=5), hour 1 appears in the index and the (hour=1, month=1)
cell is interpolated to 15, while the leading gap of month column 2 is
zero-filled. -/
theorem C2_interpolation_amended :
    (∀ a b : ℚ, interpolateColumn [some a, none, some b]
        = [some a, some ((a + b) / 2), some b]) ∧
    (∀ (ts : List (ℚ × ℚ × Option ℚ)) (mo : ℚ),
      mo ∉ ts.map (fun tr => tr.2.1) → mo ∉ pivotMonths ts) ∧
    build_surface_figure (Except.ok exampleA) = Fig.surface [1] [0, 2] [[10], [20]] ∧
    gridAt (build_surface_figure (Except.ok exampleB)) 1 1 = some 15 ∧
    build_surface_figure (Except.ok exampleB)
      = Fig.surface [1, 2] [0, 1, 2] [[10, 0], [15, 5], [20, 5]] := by
  refine ⟨?_, ?_, by decide, by decide, by decide⟩
  · intro a b
    have h1 : interpolateColumn [some a, none, some b]
        = [some a, some (a + (((0 : ℕ) : ℚ) + 1) * (b - a) / (((1 : ℕ) : ℚ) + 1)),
           some b] := rfl
    rw [h1]
    have h2 : a + (((0 : ℕ) : ℚ) + 1) * (b - a) / (((1 : ℕ) : ℚ) + 1) = (a + b) / 2 := by
      push_cast
      ring
    rw [h2]
  · intro ts mo hmo hmem
    apply hmo
    have hm' := mem_dedupSort.mp hmem
    simp only [List.mem_map] at hm' ⊢
    obtain ⟨tr, htr, rfl⟩ := hm'
    exact ⟨tr, (List.mem_filter.mp htr).1, rfl⟩

/-- Witness for the amended C2: the month value 3 is unobserved in a one-row
group list and indeed absent from the pivot's month axis. -/
theorem C2_interpolation_amended_witness :
    ((3 : ℚ) ∉ ([(((0 : ℚ)), ((1 : ℚ)), some ((10 : ℚ)))].map (fun tr => tr.2.1))) ∧
      ((3 : ℚ) ∉ pivotMonths [(((0 : ℚ)), ((1 : ℚ)), some ((10 : ℚ)))]) :=
  ⟨by decide,
   (C2_interpolation_amended).2.1 [(((0 : ℚ)), ((1 : ℚ)), some ((10 : ℚ)))] 3 (by decide)⟩

end Surface


